import Mathlib

/-!
Verification development for the core subsystems of the Speedb storage
engine: the Write Buffer Manager (WBM), the Hybrid Compaction Picker, the
HashSpd memtable, the scoped pinning policy and the adaptive table
dispatch. Each C++ function under scrutiny is shallowly embedded as an
executable Lean function over an explicit state record; machine integers
(`size_t`) are modelled as `Nat`, with explicit `% 2 ^ 64` wrapping where
the C++ semantics of unsigned arithmetic matters.
-/

namespace Spec2Proof

/-! ### Write Buffer Manager (write_buffer_manager.h)

The WBM state is the subset of `WriteBufferManager`'s data members that the
pure observer functions read: the atomic byte counters, the configured
limits and the stall/flush configuration flags. -/

/-- Modulus of `size_t` arithmetic on a 64-bit platform. -/
def wordSize : Nat := 2 ^ 64

/-- Unsigned (`size_t`) subtraction `a - b` with wraparound, as computed by
the C++ expression `a - b` on 64-bit unsigned operands. -/
def usub (a b : Nat) : Nat := (a + (wordSize - b % wordSize)) % wordSize

structure WriteBufferManager where
  buffer_size : Nat
  mutable_limit : Nat
  memory_used : Nat
  memory_inactive : Nat
  memory_being_freed : Nat
  allow_stall : Bool
  stall_active : Bool
  initiate_flushes : Bool
deriving DecidableEq, Repr

namespace WriteBufferManager

/-- `WriteBufferManager::enabled`: `buffer_size() > 0`. -/
def enabled (s : WriteBufferManager) : Bool := decide (0 < s.buffer_size)

/-- `WriteBufferManager::memory_usage`: relaxed load of `memory_used_`. -/
def memory_usage (s : WriteBufferManager) : Nat := s.memory_used

/-- `WriteBufferManager::mutable_memtable_memory_usage`:
`(inactive >= total) ? 0 : (total - inactive)` where `total - inactive` is
the `size_t` subtraction. -/
def mutable_memtable_memory_usage (s : WriteBufferManager) : Nat :=
  let total := memory_usage s
  let inactive := s.memory_inactive
  if inactive ≥ total then 0 else usub total inactive

/-- `WriteBufferManager::ShouldFlush`: only when flush initiation is off and
the WBM is enabled does it compare the mutable usage against
`mutable_limit_` and `buffer_size`. -/
def ShouldFlush (s : WriteBufferManager) : Bool :=
  if s.initiate_flushes = false ∧ enabled s = true then
    if mutable_memtable_memory_usage s > s.mutable_limit then
      true
    else
      let local_size := s.buffer_size
      if memory_usage s ≥ local_size ∧
          mutable_memtable_memory_usage s ≥ local_size / 2 then
        true
      else
        false
  else
    false

/-- `WriteBufferManager::IsStallActive`: relaxed load of `stall_active_`. -/
def IsStallActive (s : WriteBufferManager) : Bool := s.stall_active

/-- `WriteBufferManager::IsStallThresholdExceeded`:
`memory_usage() >= buffer_size_`. -/
def IsStallThresholdExceeded (s : WriteBufferManager) : Bool :=
  decide (memory_usage s ≥ s.buffer_size)

/-- `WriteBufferManager::ShouldStall`: false unless `allow_stall_` and
`enabled()`; otherwise `IsStallActive() || IsStallThresholdExceeded()`. -/
def ShouldStall (s : WriteBufferManager) : Bool :=
  if ¬ s.allow_stall = true ∨ ¬ enabled s = true then
    false
  else
    IsStallActive s || IsStallThresholdExceeded s

end WriteBufferManager

/-- A disabled WBM with all counters at zero and flush initiation off: the
configuration under which the spec says `should_flush()` is always true. -/
def wbmDisabledZero : WriteBufferManager :=
  { buffer_size := 0
    mutable_limit := 0
    memory_used := 0
    memory_inactive := 0
    memory_being_freed := 0
    allow_stall := false
    stall_active := false
    initiate_flushes := false }

/-- A disabled WBM configured with `allow_stall = true`; `memory_used = 0`
already satisfies `used ≥ buffer_size` because `buffer_size = 0`. -/
def wbmDisabledAllowStall : WriteBufferManager :=
  { buffer_size := 0
    mutable_limit := 0
    memory_used := 0
    memory_inactive := 0
    memory_being_freed := 0
    allow_stall := true
    stall_active := false
    initiate_flushes := true }

/-- C1: contrary to the claim (and to the WBM header's own documentation of
the `_buffer_size = 0` case), `ShouldFlush()` returns `false`, not `true`,
on every state with `buffer_size = 0`: the guard
`(initiate_flushes_ == false) && enabled()` fails because `enabled()` is
false, so the function falls through to `return false`. -/
theorem shouldFlush_disabled_eq_false (s : WriteBufferManager)
    (h : s.buffer_size = 0) :
    WriteBufferManager.ShouldFlush s = false := by
  simp [WriteBufferManager.ShouldFlush, WriteBufferManager.enabled, h]

/-- Witness for `shouldFlush_disabled_eq_false` at a concrete disabled
state. -/
theorem shouldFlush_disabled_eq_false_witness :
    WriteBufferManager.ShouldFlush wbmDisabledZero = false :=
  shouldFlush_disabled_eq_false wbmDisabledZero (by decide)

/-- C2 counterexample: a state where `allow_stall` is configured and
`used ≥ buffer_size` (so the claim's right-hand side holds) yet
`ShouldStall()` returns false, because the WBM is disabled
(`buffer_size = 0`) and the code additionally requires `enabled()`. -/
theorem shouldStall_claim_counterexample :
    wbmDisabledAllowStall.allow_stall = true ∧
      WriteBufferManager.memory_usage wbmDisabledAllowStall ≥
        wbmDisabledAllowStall.buffer_size ∧
      WriteBufferManager.ShouldStall wbmDisabledAllowStall = false := by
  decide

/-- C2 amended: `ShouldStall()` returns true iff `allow_stall` is
configured AND the WBM is enabled (`buffer_size > 0`) AND (a stall is
already active OR `used ≥ buffer_size`). -/
theorem shouldStall_iff (s : WriteBufferManager) :
    WriteBufferManager.ShouldStall s = true ↔
      s.allow_stall = true ∧ 0 < s.buffer_size ∧
        (s.stall_active = true ∨ s.buffer_size ≤ WriteBufferManager.memory_usage s) := by
  simp only [WriteBufferManager.ShouldStall, WriteBufferManager.IsStallActive,
    WriteBufferManager.IsStallThresholdExceeded, WriteBufferManager.enabled]
  by_cases ha : s.allow_stall = true <;>
    by_cases hb : 0 < s.buffer_size <;>
      simp [ha, hb, ge_iff_le]

/-- C10: `mutable_memtable_memory_usage()` returns `used - inactive` when
`inactive < used` and `0` otherwise; under the `size_t` bound on both
counters the guarded unsigned subtraction never wraps around. -/
theorem mutable_memtable_memory_usage_eq (s : WriteBufferManager)
    (hu : s.memory_used < wordSize) (hi : s.memory_inactive < wordSize) :
    WriteBufferManager.mutable_memtable_memory_usage s =
      if s.memory_inactive < s.memory_used then
        s.memory_used - s.memory_inactive
      else 0 := by
  simp only [WriteBufferManager.mutable_memtable_memory_usage,
    WriteBufferManager.memory_usage, usub, wordSize] at *
  split_ifs <;> omega

/-- Witness for `mutable_memtable_memory_usage_eq` at a concrete state with
`used = 10`, `inactive = 3`. -/
theorem mutable_memtable_memory_usage_eq_witness :
    WriteBufferManager.mutable_memtable_memory_usage
        { wbmDisabledZero with memory_used := 10, memory_inactive := 3 } =
      if (3 : Nat) < 10 then 10 - 3 else 0 :=
  mutable_memtable_memory_usage_eq
    { wbmDisabledZero with memory_used := 10, memory_inactive := 3 }
    (by decide) (by decide)

/-! ### Hybrid Compaction Picker (compaction_picker_hybrid.cc)

`MayStartLevelCompaction` reads, from the picker, `curNumOfHyperLevels_`,
the emptiness of the per-hyper-level sub-compaction cursor
`prevSubCompaction_[H]`, and the level layout `LastLevelInHyper`; from the
running-compaction descriptor the per-hyper-level compaction count; and
from the version storage the emptiness of the per-level file lists. The
cursor record and the level-layout arithmetic are declared in the picker's
header, so they appear here as opaque components of the picker state. -/

structure CompactionDescriptor where
  nCompactions : Nat
  hasRearange : Bool

structure HybridComactionsDescribtors where
  perHyperLevel : Nat → CompactionDescriptor
  rearangeRunning : Bool
  manualComapctionRunning : Bool

structure VersionStorageInfo where
  /-- For each level, whether `LevelFiles(level)` is the empty vector. -/
  levelFilesEmpty : Nat → Bool

structure HybridCompactionPicker where
  curNumOfHyperLevels : Nat
  /-- Opaque level layout `LastLevelInHyper` (defined in the header). -/
  lastLevelInHyper : Nat → Nat
  /-- Whether `prevSubCompaction_[H].empty()` holds. -/
  prevSubCompactionEmpty : Nat → Bool

namespace HybridCompactionPicker

/-- `HybridCompactionPicker::MayStartLevelCompaction`: false when the
hyper-level has a running compaction; false when the hyper-level is not the
last one, its sub-compaction cursor is empty and the level just below
`LastLevelInHyper(H)` is non-empty; true otherwise. -/
def MayStartLevelCompaction (p : HybridCompactionPicker) (hyperLevelNum : Nat)
    (running : HybridComactionsDescribtors) (vstorage : VersionStorageInfo) :
    Bool :=
  if 0 < (running.perHyperLevel hyperLevelNum).nCompactions then
    false
  else if hyperLevelNum ≠ p.curNumOfHyperLevels ∧
      p.prevSubCompactionEmpty hyperLevelNum = true ∧
      ¬ vstorage.levelFilesEmpty (p.lastLevelInHyper hyperLevelNum + 1) = true then
    false
  else
    true

end HybridCompactionPicker

/-- A picker with two hyper-levels and an empty sub-compaction cursor
everywhere; the level below `LastLevelInHyper(0)` holds files. -/
def pickerCE : HybridCompactionPicker :=
  { curNumOfHyperLevels := 2
    lastLevelInHyper := fun h => h
    prevSubCompactionEmpty := fun _ => true }

/-- A running descriptor with no compaction anywhere. -/
def runningCE : HybridComactionsDescribtors :=
  { perHyperLevel := fun _ => { nCompactions := 0, hasRearange := false }
    rearangeRunning := false
    manualComapctionRunning := false }

/-- A version storage in which every level is non-empty. -/
def vstorageCE : VersionStorageInfo := { levelFilesEmpty := fun _ => false }

/-- C3 counterexample: hyper-level 0 is not the last one, has no running
compaction, and its sub-compaction cursor is empty — so the claim's
condition ("the cursor is empty or the level below is empty") holds — yet
`MayStartLevelCompaction` returns false because the level immediately below
`LastLevelInHyper(0)` is non-empty: the code requires the cursor to be
NON-empty when the target level below is occupied. -/
theorem mayStartLevelCompaction_claim_counterexample :
    (runningCE.perHyperLevel 0).nCompactions = 0 ∧
      (0 = pickerCE.curNumOfHyperLevels ∨
        pickerCE.prevSubCompactionEmpty 0 = true ∨
        vstorageCE.levelFilesEmpty (pickerCE.lastLevelInHyper 0 + 1) = true) ∧
      HybridCompactionPicker.MayStartLevelCompaction pickerCE 0 runningCE
          vstorageCE = false := by
  refine ⟨rfl, Or.inr (Or.inl rfl), ?_⟩
  rfl

/-- C3 amended: `MayStartLevelCompaction(H)` holds iff H has no running
compaction AND, when H is not the last hyper-level, either the
sub-compaction cursor `prevSubCompaction_[H]` is NON-empty or the level
immediately below `LastLevelInHyper(H)` is empty. -/
theorem mayStartLevelCompaction_iff (p : HybridCompactionPicker)
    (hyperLevelNum : Nat) (running : HybridComactionsDescribtors)
    (vstorage : VersionStorageInfo) :
    HybridCompactionPicker.MayStartLevelCompaction p hyperLevelNum running
        vstorage = true ↔
      (running.perHyperLevel hyperLevelNum).nCompactions = 0 ∧
        (hyperLevelNum = p.curNumOfHyperLevels ∨
          p.prevSubCompactionEmpty hyperLevelNum = false ∨
          vstorage.levelFilesEmpty (p.lastLevelInHyper hyperLevelNum + 1) = true) := by
  simp only [HybridCompactionPicker.MayStartLevelCompaction]
  split_ifs with h1 h2
  · simp only [Bool.false_eq_true, false_iff]
    intro h
    omega
  · simp only [Bool.false_eq_true, false_iff]
    intro h
    rcases h2 with ⟨hne, hempty, hfull⟩
    rcases h.2 with hcur | hcursor | hlevel
    · exact hne hcur
    · rw [hempty] at hcursor
      cases hcursor
    · exact hfull hlevel
  · simp only [true_iff]
    constructor
    · omega
    · by_cases hcur : hyperLevelNum = p.curNumOfHyperLevels
      · exact Or.inl hcur
      · by_cases hempty : p.prevSubCompactionEmpty hyperLevelNum = true
        · refine Or.inr (Or.inr ?_)
          by_contra hlvl
          exact h2 ⟨hcur, hempty, hlvl⟩
        · exact Or.inr (Or.inl (by simpa using hempty))

/-! ### Scoped pinning policy (scoped_pinning_policy.cc) -/

structure ScopedPinningOptions where
  capacity : Nat
  last_level_with_data_percent : Nat
  mid_percent : Nat
deriving DecidableEq, Repr

structure TablePinningInfo where
  level : Int
  is_last_level_with_data : Bool
deriving DecidableEq, Repr

namespace ScopedPinningPolicy

/-- `ScopedPinningPolicy::CheckPin`: an else-if chain that compares
`usage + size` against exactly one bucket and otherwise admits. -/
def CheckPin (options : ScopedPinningOptions) (tpi : TablePinningInfo)
    (size usage : Nat) : Bool :=
  let proposed := usage + size
  if tpi.is_last_level_with_data = true ∧
      0 < options.last_level_with_data_percent then
    if proposed >
        options.capacity * options.last_level_with_data_percent / 100 then
      false
    else
      true
  else if 0 < tpi.level ∧ 0 < options.mid_percent then
    if proposed > options.capacity * options.mid_percent / 100 then
      false
    else
      true
  else if proposed > options.capacity then
    false
  else
    true

/-- Modelled from the spec: the "applicable bucket" of §4.4, written from
the spec's words to compare against the code's `CheckPin`. -/
def specApplicableBucket (options : ScopedPinningOptions)
    (tpi : TablePinningInfo) : Nat :=
  if tpi.is_last_level_with_data = true ∧
      0 < options.last_level_with_data_percent then
    options.capacity * options.last_level_with_data_percent / 100
  else if 0 < tpi.level ∧ 0 < options.mid_percent then
    options.capacity * options.mid_percent / 100
  else
    options.capacity

/-- C7: `CheckPin` admits a pin iff `usage + size` stays within the single
applicable bucket selected by the spec's cascade. -/
theorem checkPin_iff (options : ScopedPinningOptions) (tpi : TablePinningInfo)
    (size usage : Nat) :
    CheckPin options tpi size usage = true ↔
      usage + size ≤ specApplicableBucket options tpi := by
  simp only [CheckPin, specApplicableBucket]
  split_ifs with h1 h2 h3 h4 h5 <;> simp <;> omega

end ScopedPinningPolicy

/-! ### Adaptive table dispatch (adaptive_table_factory.cc)

The five magic-number constants are `extern` declarations in the source
file (their values live in the table-format implementation, outside this
repository slice), so the dispatch is modelled relative to an arbitrary
assignment of the five constants. -/

structure TableMagicNumbers where
  kPlainTableMagicNumber : Nat
  kLegacyPlainTableMagicNumber : Nat
  kBlockBasedTableMagicNumber : Nat
  kLegacyBlockBasedTableMagicNumber : Nat
  kCuckooTableMagicNumber : Nat
deriving DecidableEq, Repr

/-- Which configured reader factory `NewTableReader` delegates to. -/
inductive ReaderFactory where
  | plainTable
  | blockBasedTable
  | cuckooTable
deriving DecidableEq, Repr

namespace AdaptiveTableFactory

/-- The magic-number dispatch of `AdaptiveTableFactory::NewTableReader`
(the else-if chain after the footer has been read successfully): `ok`
means the call is delegated to that factory's `NewTableReader`; `error`
is the `Status::NotSupported` return, on which no reader is constructed. -/
def dispatchOnMagic (mn : TableMagicNumbers) (magic : Nat) :
    Except String ReaderFactory :=
  if magic = mn.kPlainTableMagicNumber ∨
      magic = mn.kLegacyPlainTableMagicNumber then
    Except.ok ReaderFactory.plainTable
  else if magic = mn.kBlockBasedTableMagicNumber ∨
      magic = mn.kLegacyBlockBasedTableMagicNumber then
    Except.ok ReaderFactory.blockBasedTable
  else if magic = mn.kCuckooTableMagicNumber then
    Except.ok ReaderFactory.cuckooTable
  else
    Except.error "Unidentified table format"

/-- `AdaptiveTableFactory::NewTableReader`: a failed footer read is
returned as-is; otherwise the footer's magic number is dispatched. -/
def NewTableReader (mn : TableMagicNumbers)
    (footerRead : Except String Nat) : Except String ReaderFactory :=
  match footerRead with
  | Except.error s => Except.error s
  | Except.ok magic => dispatchOnMagic mn magic

/-- C8: for every magic number other than the five recognized ones the
dispatch returns the NotSupported error (no reader factory is selected),
and each recognized magic number is routed to its factory following the
order of the else-if chain. -/
theorem newTableReader_dispatch (mn : TableMagicNumbers) (magic : Nat) :
    (magic ≠ mn.kPlainTableMagicNumber →
      magic ≠ mn.kLegacyPlainTableMagicNumber →
      magic ≠ mn.kBlockBasedTableMagicNumber →
      magic ≠ mn.kLegacyBlockBasedTableMagicNumber →
      magic ≠ mn.kCuckooTableMagicNumber →
      NewTableReader mn (Except.ok magic) =
        Except.error "Unidentified table format") ∧
    (magic = mn.kPlainTableMagicNumber ∨
        magic = mn.kLegacyPlainTableMagicNumber →
      NewTableReader mn (Except.ok magic) =
        Except.ok ReaderFactory.plainTable) ∧
    (magic ≠ mn.kPlainTableMagicNumber →
      magic ≠ mn.kLegacyPlainTableMagicNumber →
      magic = mn.kBlockBasedTableMagicNumber ∨
        magic = mn.kLegacyBlockBasedTableMagicNumber →
      NewTableReader mn (Except.ok magic) =
        Except.ok ReaderFactory.blockBasedTable) ∧
    (magic ≠ mn.kPlainTableMagicNumber →
      magic ≠ mn.kLegacyPlainTableMagicNumber →
      magic ≠ mn.kBlockBasedTableMagicNumber →
      magic ≠ mn.kLegacyBlockBasedTableMagicNumber →
      magic = mn.kCuckooTableMagicNumber →
      NewTableReader mn (Except.ok magic) =
        Except.ok ReaderFactory.cuckooTable) ∧
    (∀ msg : String, NewTableReader mn (Except.error msg) =
      Except.error msg) := by
  refine ⟨?_, ?_, ?_, ?_, fun msg => rfl⟩ <;>
    · intros
      simp only [NewTableReader, dispatchOnMagic]
      split_ifs <;> tauto

end AdaptiveTableFactory

/-- A concrete assignment of pairwise-distinct magic numbers. -/
def magicNumbersW : TableMagicNumbers :=
  { kPlainTableMagicNumber := 1
    kLegacyPlainTableMagicNumber := 2
    kBlockBasedTableMagicNumber := 3
    kLegacyBlockBasedTableMagicNumber := 4
    kCuckooTableMagicNumber := 5 }

/-- Witness for `newTableReader_dispatch`: with distinct concrete magic
numbers, an unrecognized magic number (42) yields the NotSupported error. -/
theorem newTableReader_dispatch_witness :
    AdaptiveTableFactory.NewTableReader magicNumbersW (Except.ok 42) =
      Except.error "Unidentified table format" :=
  (AdaptiveTableFactory.newTableReader_dispatch magicNumbersW 42).1
    (by decide) (by decide) (by decide) (by decide) (by decide)

/-! ### HashSpd memtable (hash_spd_rep.cc)

Keys are an abstract type `α` compared by an injected three-way comparator
`cmp : α → α → Int` (the sign of `comparator(a, b)`) and hashed by
`hash : α → Nat` (MurmurHash of the user key). A bucket is the ordered
list of keys in its singly-linked list; the sorted-vector container is the
list of its vectors' contents in container order, the last one being the
unsealed tail. -/

namespace BucketHeader

/-- `BucketHeader::Contains`: walk the bucket list; `0` means found,
a positive comparison means the probe key cannot appear further on. -/
def Contains (cmp : α → α → Int) (check_key : α) : List α → Bool
  | [] => false
  | k :: ks =>
    if cmp k check_key = 0 then true
    else if 0 < cmp k check_key then false
    else Contains cmp check_key ks

/-- `BucketHeader::Add`: walk to the first entry comparing `≥ 0` against
`val`; an equal entry rejects the insert (`none`, list unchanged), else
`val` is linked in before that entry. -/
def Add (cmp : α → α → Int) (val : α) : List α → Option (List α)
  | [] => some [val]
  | k :: ks =>
    if cmp k val = 0 then none
    else if 0 < cmp k val then some (val :: k :: ks)
    else
      match Add cmp val ks with
      | none => none
      | some r => some (k :: r)

end BucketHeader

namespace SpdbVectorContainer

/-- `SpdbVectorContainer::Insert`: append the key to the tail vector if it
still has room (`SpdbVector::Add` succeeds while the claimed slot is below
the vector's capacity `switch_spdb_vector_limit_`), otherwise append a
fresh vector holding the key. -/
def Insert (limit : Nat) (key : α) : List (List α) → List (List α)
  | [] => [[key]]
  | [tail] =>
    if tail.length < limit then [tail ++ [key]] else [tail, [key]]
  | v :: rest => v :: Insert limit key rest

end SpdbVectorContainer

structure HashSpdRep (α : Type) where
  buckets : List (List α)
  container : List (List α)
  limit : Nat
deriving DecidableEq, Repr

namespace HashSpdRep

/-- `SpdbHashTable::GetMutexAndBucket`'s bucket selection:
`hash % buckets_.size()`. -/
def bucketIdx (hash : α → Nat) (s : HashSpdRep α) (k : α) : Nat :=
  hash k % s.buckets.length

/-- `HashSpdRep::InsertKey`: try `SpdbHashTable::Add`; on failure return
false with the state untouched, on success also append the key to the
sorted-vector container. -/
def InsertKey (cmp : α → α → Int) (hash : α → Nat) (s : HashSpdRep α)
    (k : α) : Bool × HashSpdRep α :=
  match BucketHeader.Add cmp k (s.buckets.getD (bucketIdx hash s k) []) with
  | none => (false, s)
  | some b =>
    (true,
      { s with
        buckets := s.buckets.set (bucketIdx hash s k) b
        container := SpdbVectorContainer.Insert s.limit k s.container })

/-- `HashSpdRep::Contains`: delegate to the key's bucket. -/
def Contains (cmp : α → α → Int) (hash : α → Nat) (s : HashSpdRep α)
    (k : α) : Bool :=
  BucketHeader.Contains cmp k (s.buckets.getD (bucketIdx hash s k) [])

/-- `HashSpdRep::ApproximateMemoryUsage`: memory is always allocated from
the allocator, so the memtable reports none of its own. -/
def ApproximateMemoryUsage (_s : HashSpdRep α) : Nat := 0

end HashSpdRep

/-- All keys held by the sorted-vector container, in container order: what
an iterator over the container enumerates (up to per-vector sorting). -/
def containerKeys (c : List (List α)) : List α :=
  c.foldr (fun v acc => v ++ acc) []

/-- Number of keys in `l` that the comparator deems equal to `k`. -/
def countKeyEq (cmp : α → α → Int) (k : α) (l : List α) : Nat :=
  (l.filter fun e => decide (cmp e k = 0)).length

theorem countKeyEq_append (cmp : α → α → Int) (k : α) (l1 l2 : List α) :
    countKeyEq cmp k (l1 ++ l2) = countKeyEq cmp k l1 + countKeyEq cmp k l2 := by
  simp [countKeyEq, List.filter_append]

theorem containerKeys_cons (v : List α) (c : List (List α)) :
    containerKeys (v :: c) = v ++ containerKeys c := rfl

theorem countKeyEq_nil (cmp : α → α → Int) (k : α) :
    countKeyEq cmp k [] = 0 := rfl

theorem countKeyEq_singleton (cmp : α → α → Int) (k key : α) :
    countKeyEq cmp k [key] = if cmp key k = 0 then 1 else 0 := by
  by_cases h : cmp key k = 0 <;> simp [countKeyEq, List.filter, h]

theorem countKeyEq_containerInsert (cmp : α → α → Int) (k key : α)
    (limit : Nat) :
    ∀ c : List (List α),
      countKeyEq cmp k (containerKeys (SpdbVectorContainer.Insert limit key c)) =
        countKeyEq cmp k (containerKeys c) +
          (if cmp key k = 0 then 1 else 0)
  | [] => by
    simp only [SpdbVectorContainer.Insert, containerKeys, List.foldr,
      List.append_nil]
    rw [countKeyEq_singleton, countKeyEq_nil]
    omega
  | [tail] => by
    simp only [SpdbVectorContainer.Insert]
    split_ifs <;>
      simp_all [containerKeys, countKeyEq_append, countKeyEq_singleton]
  | v :: w :: rest => by
    have ih := countKeyEq_containerInsert cmp k key limit (w :: rest)
    simp only [SpdbVectorContainer.Insert, containerKeys_cons,
      countKeyEq_append, ih]
    omega

theorem getD_set_self (b d : α) :
    ∀ (l : List α) (i : Nat), i < l.length → (l.set i b).getD i d = b := by
  intro l
  induction l with
  | nil => intro i h; simp at h
  | cons a t ih =>
    intro i h
    cases i with
    | zero => rfl
    | succ n =>
      simp only [List.set, List.getD_cons_succ]
      exact ih n (by simpa using Nat.lt_of_succ_lt_succ h)

/-- Decomposition of a successful `BucketHeader::Add`: the new list is the
old one with `val` linked in after exactly the entries comparing below it,
and the entry right after `val` (if any) compares above it. -/
theorem bucketAdd_eq_some (cmp : α → α → Int) (val : α) :
    ∀ l l' : List α, BucketHeader.Add cmp val l = some l' →
      ∃ pre suf, l = pre ++ suf ∧ l' = pre ++ val :: suf ∧
        (∀ e ∈ pre, cmp e val < 0) ∧
        (∀ h ∈ suf.head?, 0 < cmp h val) := by
  intro l
  induction l with
  | nil =>
    intro l' h
    refine ⟨[], [], rfl, ?_, by simp, by simp⟩
    simpa [BucketHeader.Add] using h.symm
  | cons a t ih =>
    intro l' h
    simp only [BucketHeader.Add] at h
    by_cases h0 : cmp a val = 0
    · simp [h0] at h
    · by_cases hpos : 0 < cmp a val
      · simp only [h0, if_false, hpos, if_true, Option.some.injEq] at h
        refine ⟨[], a :: t, rfl, by simp [h.symm], by simp, ?_⟩
        intro x hx
        simp only [List.head?] at hx
        cases hx
        exact hpos
      · simp only [h0, if_false, hpos, if_false] at h
        cases hrec : BucketHeader.Add cmp val t with
        | none => rw [hrec] at h; cases h
        | some r =>
          rw [hrec] at h
          obtain ⟨pre, suf, ht, hr, hpre, hsuf⟩ := ih r hrec
          have hl : l' = a :: r := by
            have := h
            simp only [Option.some.injEq] at this
            exact this.symm
          refine ⟨a :: pre, suf, by simp [ht], by simp [hl, hr], ?_, hsuf⟩
          intro e he
          rcases List.mem_cons.mp he with he | he
          · subst he; omega
          · exact hpre e he

/-- Adding a key comparator-equal to `k` into a list of the form
`pre ++ k :: suf`, with every entry of `pre` below the key, is rejected. -/
theorem bucketAdd_dup_none (cmp : α → α → Int) (dup : α) :
    ∀ (pre suf : List α) (k : α), cmp k dup = 0 →
      (∀ e ∈ pre, cmp e dup < 0) →
      BucketHeader.Add cmp dup (pre ++ k :: suf) = none := by
  intro pre
  induction pre with
  | nil =>
    intro suf k hk _
    simp [BucketHeader.Add, hk]
  | cons a t ih =>
    intro suf k hk hpre
    have ha : cmp a dup < 0 := hpre a (by simp)
    simp only [List.cons_append, BucketHeader.Add]
    rw [if_neg (by omega), if_neg (by omega)]
    have hrec := ih suf k hk (fun e he => hpre e (by simp [he]))
    simp only [List.append_eq]
    rw [hrec]

/-- Walking a list of the form `pre ++ k :: suf`, with every entry of
`pre` below the probe key, `Contains` finds the equal entry `k`. -/
theorem bucketContains_mid (cmp : α → α → Int) (ck : α) :
    ∀ (pre suf : List α) (k : α), cmp k ck = 0 →
      (∀ e ∈ pre, cmp e ck < 0) →
      BucketHeader.Contains cmp ck (pre ++ k :: suf) = true := by
  intro pre
  induction pre with
  | nil =>
    intro suf k hk _
    simp [BucketHeader.Contains, hk]
  | cons a t ih =>
    intro suf k hk hpre
    have ha : cmp a ck < 0 := hpre a (by simp)
    simp only [List.cons_append, BucketHeader.Contains]
    rw [if_neg (by omega), if_neg (by omega)]
    exact ih suf k hk (fun e he => hpre e (by simp [he]))

/-- C4: after a successful insert of `k`, inserting a handle whose key
`dup` is comparator-equal to `k` (indistinguishable by the comparator and
hashing to the same bucket) returns false and leaves the memtable
unchanged — nothing is linked into the bucket and nothing is appended to
the sorted-vector container — while `Contains k` stays true; if no key
equal to `k` was in the container before, the container (hence any
iterator over it) holds a key equal to `k` exactly once. -/
theorem insertKey_duplicate (cmp : α → α → Int) (hash : α → Nat)
    (s0 s1 : HashSpdRep α) (k dup : α)
    (hbuckets : 0 < s0.buckets.length)
    (hsucc : HashSpdRep.InsertKey cmp hash s0 k = (true, s1))
    (hsame : ∀ e, cmp e dup = cmp e k)
    (hhash : hash dup = hash k)
    (hself : cmp k k = 0)
    (hfresh : countKeyEq cmp k (containerKeys s0.container) = 0) :
    HashSpdRep.InsertKey cmp hash s1 dup = (false, s1) ∧
      HashSpdRep.Contains cmp hash s1 k = true ∧
      countKeyEq cmp k (containerKeys s1.container) = 1 := by
  rcases hb : BucketHeader.Add cmp k
      (s0.buckets.getD (HashSpdRep.bucketIdx hash s0 k) []) with _ | b
  · rw [HashSpdRep.InsertKey, hb] at hsucc
    cases hsucc
  · rw [HashSpdRep.InsertKey, hb] at hsucc
    simp only [Prod.mk.injEq, true_and] at hsucc
    obtain ⟨pre, suf, hold, hnew, hpre, hhead⟩ := bucketAdd_eq_some cmp k _ _ hb
    have hidx : HashSpdRep.bucketIdx hash s0 k < s0.buckets.length :=
      Nat.mod_lt _ hbuckets
    have hlen : s1.buckets.length = s0.buckets.length := by
      rw [← hsucc]; simp
    have hidx1 : HashSpdRep.bucketIdx hash s1 k = HashSpdRep.bucketIdx hash s0 k := by
      simp [HashSpdRep.bucketIdx, hlen]
    have hidxdup : HashSpdRep.bucketIdx hash s1 dup = HashSpdRep.bucketIdx hash s0 k := by
      simp [HashSpdRep.bucketIdx, hlen, hhash]
    have hbucket1 : s1.buckets.getD (HashSpdRep.bucketIdx hash s0 k) [] = b := by
      rw [← hsucc]
      exact getD_set_self b [] s0.buckets _ hidx
    refine ⟨?_, ?_, ?_⟩
    · have hnone : BucketHeader.Add cmp dup b = none := by
        rw [hnew]
        exact bucketAdd_dup_none cmp dup pre suf k
          (by rw [hsame k]; exact hself)
          (fun e he => by rw [hsame e]; exact hpre e he)
      rw [HashSpdRep.InsertKey, hidxdup, hbucket1, hnone]
    · have hcont : BucketHeader.Contains cmp k b = true := by
        rw [hnew]
        exact bucketContains_mid cmp k pre suf k hself hpre
      rw [HashSpdRep.Contains, hidx1, hbucket1, hcont]
    · have hcount := countKeyEq_containerInsert cmp k k s0.limit s0.container
      rw [if_pos hself] at hcount
      have hc1 : s1.container =
          SpdbVectorContainer.Insert s0.limit k s0.container := by
        rw [← hsucc]
      rw [hc1, hcount, hfresh]

/-- A concrete two-bucket memtable before the first insert of key `1`. -/
def memtableW0 : HashSpdRep Nat :=
  { buckets := [[], []], container := [[]], limit := 4 }

/-- `memtableW0` after the successful insert of key `1`. -/
def memtableW1 : HashSpdRep Nat :=
  { buckets := [[], [1]], container := [[1]], limit := 4 }

/-- Three-way comparator on `Nat`, used to instantiate the abstract
injected comparator in witnesses. -/
def natCmp (a b : Nat) : Int :=
  if a < b then -1 else if b < a then 1 else 0

theorem natCmp_lt (a b : Nat) : natCmp a b < 0 ↔ a < b := by
  rcases Nat.lt_trichotomy a b with h | h | h
  · rw [natCmp, if_pos h]
    constructor <;> (intro hc; omega)
  · subst h
    rw [natCmp, if_neg (by omega), if_neg (by omega)]
    constructor <;> (intro hc; omega)
  · rw [natCmp, if_neg (by omega), if_pos h]
    constructor <;> (intro hc; omega)

theorem natCmp_pos (a b : Nat) : 0 < natCmp a b ↔ b < a := by
  rcases Nat.lt_trichotomy a b with h | h | h
  · rw [natCmp, if_pos h]
    constructor <;> (intro hc; omega)
  · subst h
    rw [natCmp, if_neg (by omega), if_neg (by omega)]
    constructor <;> (intro hc; omega)
  · rw [natCmp, if_neg (by omega), if_pos h]
    constructor <;> (intro hc; omega)

theorem natCmp_zero (a b : Nat) : natCmp a b = 0 ↔ a = b := by
  rcases Nat.lt_trichotomy a b with h | h | h
  · rw [natCmp, if_pos h]
    constructor <;> (intro hc; omega)
  · subst h
    rw [natCmp, if_neg (by omega), if_neg (by omega)]
    constructor <;> (intro hc; omega)
  · rw [natCmp, if_neg (by omega), if_pos h]
    constructor <;> (intro hc; omega)

/-- Witness for `insertKey_duplicate` on the concrete memtable: a second
insert of key `1` fails, changes nothing, and the key stays found once. -/
theorem insertKey_duplicate_witness :
    HashSpdRep.InsertKey natCmp id memtableW1 1 = (false, memtableW1) ∧
      HashSpdRep.Contains natCmp id memtableW1 1 = true ∧
      countKeyEq natCmp 1 (containerKeys memtableW1.container) = 1 :=
  insertKey_duplicate natCmp id memtableW0 memtableW1 1 1
    (by decide) (by decide) (fun e => rfl) rfl (by decide) (by decide)

/-- A bucket list strictly sorted in ascending comparator order. -/
def SortedBucket (cmp : α → α → Int) (l : List α) : Prop :=
  l.Pairwise fun a b => cmp a b < 0

instance (cmp : α → α → Int) (l : List α) : Decidable (SortedBucket cmp l) :=
  List.instDecidablePairwise l

/-- C5: with a lawful three-way comparator, `BucketHeader::Add` preserves
strict sortedness of a bucket list, rejects (returns `none` for) any key
comparator-equal to an existing entry — so inserts never create
duplicates — and on a sorted bucket the early-stopping
`BucketHeader::Contains` walk is exactly membership of a comparator-equal
entry. -/
theorem bucketAdd_sorted (cmp : α → α → Int)
    (hTrans : ∀ a b c, cmp a b < 0 → cmp b c < 0 → cmp a c < 0)
    (hAsymm : ∀ a b, 0 < cmp a b → cmp b a < 0)
    (hEqLt : ∀ a b c, cmp a b = 0 → cmp c a < 0 → cmp c b < 0) :
    (∀ (l l' : List α) (v : α), SortedBucket cmp l →
        BucketHeader.Add cmp v l = some l' → SortedBucket cmp l') ∧
      (∀ (l : List α) (v : α), SortedBucket cmp l →
        (∃ e ∈ l, cmp e v = 0) → BucketHeader.Add cmp v l = none) ∧
      (∀ (l : List α) (ck : α), SortedBucket cmp l →
        (BucketHeader.Contains cmp ck l = true ↔ ∃ e ∈ l, cmp e ck = 0)) := by
  refine ⟨?_, ?_, ?_⟩
  · intro l l' v hsort hadd
    obtain ⟨pre, suf, hold, hnew, hpre, hhead⟩ := bucketAdd_eq_some cmp v l l' hadd
    subst hold hnew
    rw [SortedBucket, List.pairwise_append] at hsort ⊢
    obtain ⟨hp, hs, hcross⟩ := hsort
    refine ⟨hp, ?_, ?_⟩
    · rw [List.pairwise_cons]
      refine ⟨?_, hs⟩
      intro e he
      cases suf with
      | nil => cases he
      | cons h t =>
        have hvh : cmp v h < 0 := hAsymm h v (hhead h rfl)
        rcases List.mem_cons.mp he with he | he
        · subst he; exact hvh
        · exact hTrans v h e hvh ((List.pairwise_cons.mp hs).1 e he)
    · intro a ha e he
      rcases List.mem_cons.mp he with he | he
      · subst he; exact hpre a ha
      · exact hcross a ha e he
  · intro l v hsort hex
    induction l with
    | nil => simp at hex
    | cons a t ih =>
      rw [SortedBucket, List.pairwise_cons] at hsort
      obtain ⟨hat, ht⟩ := hsort
      obtain ⟨e, he, hev⟩ := hex
      by_cases h0 : cmp a v = 0
      · simp [BucketHeader.Add, h0]
      · have hemem : e ∈ t := by
          rcases List.mem_cons.mp he with he | he
          · subst he; exact absurd hev h0
          · exact he
        by_cases hpos : 0 < cmp a v
        · exact absurd (hEqLt e v a hev (hat e hemem)) (by omega)
        · have hrec := ih ht ⟨e, hemem, hev⟩
          simp only [BucketHeader.Add, h0, if_false, hpos, hrec]
  · intro l ck hsort
    induction l with
    | nil => simp [BucketHeader.Contains]
    | cons a t ih =>
      rw [SortedBucket, List.pairwise_cons] at hsort
      obtain ⟨hat, ht⟩ := hsort
      by_cases h0 : cmp a ck = 0
      · simp [BucketHeader.Contains, h0]
      · by_cases hpos : 0 < cmp a ck
        · simp only [BucketHeader.Contains, h0, if_false, hpos, if_true]
          constructor
          · intro hfalse; cases hfalse
          · rintro ⟨e, he, hev⟩
            rcases List.mem_cons.mp he with he | he
            · subst he; exact absurd hev h0
            · exact absurd (hEqLt e ck a hev (hat e he)) (by omega)
        · simp only [BucketHeader.Contains, h0, if_false, hpos]
          rw [ih ht]
          constructor
          · rintro ⟨e, he, hev⟩; exact ⟨e, List.mem_cons_of_mem a he, hev⟩
          · rintro ⟨e, he, hev⟩
            rcases List.mem_cons.mp he with he | he
            · subst he; exact absurd hev h0
            · exact ⟨e, he, hev⟩

theorem natCmp_trans (a b c : Nat) :
    natCmp a b < 0 → natCmp b c < 0 → natCmp a c < 0 := by
  rw [natCmp_lt, natCmp_lt, natCmp_lt]; omega

theorem natCmp_asymm (a b : Nat) : 0 < natCmp a b → natCmp b a < 0 := by
  rw [natCmp_pos, natCmp_lt]; omega

theorem natCmp_eq_lt (a b c : Nat) :
    natCmp a b = 0 → natCmp c a < 0 → natCmp c b < 0 := by
  rw [natCmp_zero, natCmp_lt, natCmp_lt]; omega

/-- Witness for `bucketAdd_sorted` with the concrete comparator: inserting
`2` into the sorted bucket `[1, 3]` keeps it sorted, re-inserting into the
result is rejected, and `Contains` finds the key. -/
theorem bucketAdd_sorted_witness :
    SortedBucket natCmp [1, 2, 3] ∧
      BucketHeader.Add natCmp 2 [1, 2, 3] = none ∧
      BucketHeader.Contains natCmp 2 [1, 2, 3] = true :=
  ⟨(bucketAdd_sorted natCmp natCmp_trans natCmp_asymm natCmp_eq_lt).1
      [1, 3] [1, 2, 3] 2 (by decide) (by decide),
    (bucketAdd_sorted natCmp natCmp_trans natCmp_asymm natCmp_eq_lt).2.1
      [1, 2, 3] 2 (by decide) ⟨2, by decide, by decide⟩,
    ((bucketAdd_sorted natCmp natCmp_trans natCmp_asymm natCmp_eq_lt).2.2
      [1, 2, 3] 2 (by decide)).mpr ⟨2, by decide, by decide⟩⟩

/-- C9: `HashSpdRep::ApproximateMemoryUsage` reports zero for every
memtable state; the arena allocator accounts for all memory. -/
theorem approximateMemoryUsage_eq_zero (α : Type) (s : HashSpdRep α) :
    HashSpdRep.ApproximateMemoryUsage s = 0 := rfl

/-! ### Sort-thread vector merging (hash_spd_rep.cc)

`SpdbVectorContainer::TryMergeVectors` scans the container by vector size
only, so it is embedded over the list of vector sizes. The sort thread
passes `last = std::prev(spdb_vectors_.end())`, i.e. the scan covers every
vector but the unsealed tail, and only runs the scan when the container
holds more than `kMergedVectorsMax` vectors. The embedding returns the
half-open index range `[s, e)` of vectors handed to `Merge`, or `none`
when no merge happens. -/

def kMergedVectorsMax : Nat := 8

/-- The scan loop of `TryMergeVectors`: `idx` is the position of iterator
`s` in the scanned range, `start`/`count` mirror the loop locals. A vector
is "big" when its size exceeds the merge threshold. -/
def tryMergeAux (thr : Nat) : List Nat → Nat → Nat → Nat → Option (Nat × Nat)
  | [], idx, start, count => if 1 < count then some (start, idx) else none
  | sz :: rest, idx, start, count =>
    if thr < sz then
      if 1 < count then some (start, idx)
      else tryMergeAux thr rest (idx + 1) (idx + 1) 0
    else if count + 1 = kMergedVectorsMax then some (start, idx + 1)
    else tryMergeAux thr rest (idx + 1) start (count + 1)

/-- `SpdbVectorContainer::TryMergeVectors` over the sizes of the scanned
vectors, with `merge_threshold = switch_spdb_vector_limit_ * 75 / 100`. -/
def TryMergeVectors (limit : Nat) (scanned : List Nat) : Option (Nat × Nat) :=
  tryMergeAux (limit * 75 / 100) scanned 0 0 0

/-- The merge decision of `SpdbVectorContainer::SortThread`: scan all
vectors except the tail, and only when the container holds more than
`kMergedVectorsMax` vectors. -/
def sortThreadTryMerge (limit : Nat) (sizes : List Nat) : Option (Nat × Nat) :=
  if kMergedVectorsMax < sizes.length then
    TryMergeVectors limit sizes.dropLast
  else
    none

theorem drop_cons_facts (full : List Nat) :
    ∀ (idx sz : Nat) (rest : List Nat), full.drop idx = sz :: rest →
      full.getD idx 0 = sz ∧ full.drop (idx + 1) = rest ∧ idx < full.length := by
  induction full with
  | nil => intro idx sz rest h; simp at h
  | cons a t ih =>
    intro idx sz rest h
    cases idx with
    | zero =>
      rw [List.drop_zero] at h
      cases h
      exact ⟨rfl, by rw [List.drop_succ_cons, List.drop_zero], by simp⟩
    | succ n =>
      rw [List.drop_succ_cons] at h
      obtain ⟨h1, h2, h3⟩ := ih n sz rest h
      refine ⟨by simpa [List.getD_cons_succ] using h1, ?_, by simp; omega⟩
      rw [List.drop_succ_cons]
      exact h2

/-- Loop invariant of the `TryMergeVectors` scan: the locals satisfy
`idx = start + count`, the vectors at `[start, idx)` are small, and any
returned range `[s, e)` is a run of 2..`kMergedVectorsMax` small vectors
inside the scanned range. -/
theorem tryMergeAux_spec (thr : Nat) (full : List Nat) :
    ∀ (l : List Nat) (idx start count : Nat),
      l = full.drop idx →
      idx = start + count →
      count < kMergedVectorsMax →
      idx ≤ full.length →
      (∀ i, start ≤ i → i < idx → full.getD i 0 ≤ thr) →
      ∀ s e, tryMergeAux thr l idx start count = some (s, e) →
        2 ≤ e - s ∧ e - s ≤ kMergedVectorsMax ∧ e ≤ full.length ∧
          (∀ i, s ≤ i → i < e → full.getD i 0 ≤ thr) := by
  intro l
  induction l with
  | nil =>
    intro idx start count hdrop hc hcount hle hsmall s e h
    have hK : kMergedVectorsMax = 8 := rfl
    simp only [tryMergeAux] at h
    split_ifs at h with hrun
    simp only [Option.some.injEq, Prod.mk.injEq] at h
    obtain ⟨hs, he⟩ := h
    subst hs he
    exact ⟨by omega, by omega, hle, hsmall⟩
  | cons sz rest ih =>
    intro idx start count hdrop hc hcount hle hsmall s e h
    have hK : kMergedVectorsMax = 8 := rfl
    obtain ⟨hsz, hrest, hidx⟩ := drop_cons_facts full idx sz rest hdrop.symm
    simp only [tryMergeAux] at h
    split_ifs at h with hbig hrun hmax
    · simp only [Option.some.injEq, Prod.mk.injEq] at h
      obtain ⟨hs, he⟩ := h
      subst hs he
      exact ⟨by omega, by omega, by omega, hsmall⟩
    · exact ih (idx + 1) (idx + 1) 0 hrest.symm (by omega) (by decide)
        (by omega) (fun i h1 h2 => absurd (by omega : i < i) (by omega)) s e h
    · simp only [Option.some.injEq, Prod.mk.injEq] at h
      obtain ⟨hs, he⟩ := h
      subst hs he
      refine ⟨by omega, by omega, by omega, ?_⟩
      intro i hi1 hi2
      rcases Nat.lt_or_ge i idx with hlt | hge
      · exact hsmall i hi1 hlt
      · have hieq : i = idx := by omega
        subst hieq
        rw [hsz]
        omega
    · refine ih (idx + 1) start (count + 1) hrest.symm (by omega) (by omega)
        (by omega) ?_ s e h
      intro i hi1 hi2
      rcases Nat.lt_or_ge i idx with hlt | hge
      · exact hsmall i hi1 hlt
      · have hieq : i = idx := by omega
        subst hieq
        rw [hsz]
        omega

theorem getD_dropLast (l : List Nat) :
    ∀ i, i < l.length - 1 → l.dropLast.getD i 0 = l.getD i 0 := by
  induction l with
  | nil => intro i h; simp at h
  | cons a t ih =>
    intro i h
    cases t with
    | nil => simp at h
    | cons b u =>
      cases i with
      | zero => rfl
      | succ n =>
        have hn : n < (b :: u).length - 1 := by
          simp at h ⊢
          omega
        have := ih n hn
        simpa [List.dropLast_cons₂, List.getD_cons_succ] using this

/-- C6 counterexample to the strict "smaller than 75% of capacity"
reading: with capacity 100 the merge threshold is exactly 75, and the sort
thread merges the run of two vectors of size exactly 75 — each 75% of
capacity, none smaller than 75% — out of a 9-vector container. -/
theorem tryMergeVectors_claim_counterexample :
    sortThreadTryMerge 100 [75, 75, 76, 76, 76, 76, 76, 76, 76] =
        some (0, 2) ∧
      ¬ (∀ i, 0 ≤ i → i < 2 →
          [75, 75, 76, 76, 76, 76, 76, 76, 76].getD i 0 * 100 < 100 * 75) := by
  constructor
  · decide
  · intro hall
    exact absurd (hall 0 (Nat.le_refl 0) (by omega)) (by decide)

/-- C6 amended: the sort thread merges only when the container holds more
than `kMergedVectorsMax` (8) vectors and it finds a run of at least 2
consecutive scanned vectors each of size at most the merge threshold
`capacity * 75 / 100`; the merged range takes at most `kMergedVectorsMax`
vectors from that run and never includes the unsealed tail (the last
vector of the container). -/
theorem sortThread_merge_spec (limit : Nat) (sizes : List Nat) (s e : Nat)
    (h : sortThreadTryMerge limit sizes = some (s, e)) :
    kMergedVectorsMax < sizes.length ∧
      2 ≤ e - s ∧ e - s ≤ kMergedVectorsMax ∧
      e ≤ sizes.length - 1 ∧
      (∀ i, s ≤ i → i < e → sizes.getD i 0 ≤ limit * 75 / 100) := by
  rw [sortThreadTryMerge] at h
  split_ifs at h with hlen
  have hdl : sizes.dropLast.length = sizes.length - 1 :=
    List.length_dropLast sizes
  have hspec := tryMergeAux_spec (limit * 75 / 100) sizes.dropLast
    sizes.dropLast 0 0 0 (List.drop_zero _).symm rfl (by decide)
    (Nat.zero_le _) (fun i h1 h2 => absurd h2 (Nat.not_lt_zero i)) s e h
  obtain ⟨h2, h8, hee, hsm⟩ := hspec
  refine ⟨hlen, h2, h8, by omega, ?_⟩
  intro i hi1 hi2
  have hi3 : i < sizes.length - 1 := by omega
  have := hsm i hi1 hi2
  rwa [getD_dropLast sizes i hi3] at this

/-- Witness for `sortThread_merge_spec`: a 9-vector container whose first
two vectors are small gets exactly those two merged. -/
theorem sortThread_merge_spec_witness :
    kMergedVectorsMax < ([10, 10, 80, 80, 80, 80, 80, 80, 80] : List Nat).length ∧
      2 ≤ 2 - 0 ∧ 2 - 0 ≤ kMergedVectorsMax ∧
      2 ≤ ([10, 10, 80, 80, 80, 80, 80, 80, 80] : List Nat).length - 1 ∧
      (∀ i, 0 ≤ i → i < 2 →
        ([10, 10, 80, 80, 80, 80, 80, 80, 80] : List Nat).getD i 0 ≤
          100 * 75 / 100) :=
  sortThread_merge_spec 100 [10, 10, 80, 80, 80, 80, 80, 80, 80] 0 2 (by decide)

end Spec2Proof
